import Mathlib

/-!
Shallow embedding of the websocket presence/broadcast server (the variant with
message history, which the spec designates as canonical; the second file in the
repository is a near-duplicate of it without the history buffer).

Modelling conventions:
* JS `undefined`/`null` string values are `Option String`; JS truthiness on
  such a value is "is `some s` with `s` nonempty".
* The module-level mutable bindings `userState`, `messages`, `deletionTimers`
  and the persisted roster file form `ServerState`.  `deletionTimers` is the
  `Map` from user id to its armed `setTimeout` handle, represented as an
  association list; handles are drawn from a counter so that a superseded
  (cleared) timer is distinguishable from the live one.  The source never
  iterates the map, so entry order is irrelevant.
* The `connectedUsers` map of the source is dead state: the code only ever
  calls `connectedUsers.delete`, never adds an entry, so it is omitted.
* `ws.send` calls are recorded as `(connection id, payload)` pairs; the
  roster broadcast `JSON.stringify(userState)` is `Payload.roster`, the
  verbatim re-broadcast of a send frame is `Payload.raw`, and the history
  envelope is `Payload.history`.
* `JSON.parse` of a malformed frame throws; the `message` handler has no
  try/catch, so the handler is `Except Unit MsgResult` and a malformed frame
  is `Except.error ()` (an uncaught exception).
-/

namespace WsBack

/-- A roster entry as stored in `userState`: the object `(id, name)` built by
the registration handler.  `name` is optional because a request body without
a `name` key stores `undefined` there. -/
structure Identity where
  id : String
  name : Option String
deriving DecidableEq, Repr

/-- The `user` field of an inbound frame, an object with optional `id` and
`name` fields. -/
structure UserRef where
  id : Option String
  name : Option String
deriving DecidableEq, Repr

/-- A parsed inbound JSON message: its `type` field, its `user` field, and
the remaining payload content (opaque to the server). -/
structure ClientMsg where
  type : Option String
  user : Option UserRef
  rest : String
deriving DecidableEq, Repr

/-- A payload written to a websocket. -/
inductive Payload where
  | roster (users : List Identity)
  | raw (m : ClientMsg)
  | history (msgs : List ClientMsg)
deriving DecidableEq, Repr

/-- One entry of `wsServer.clients` together with the per-connection closure
variable `currentUserId` of its `connection` handler. -/
structure Conn where
  cid : Nat
  isOpen : Bool
  cur : Option String
deriving DecidableEq, Repr

/-- The module-level mutable state of the server process. -/
structure ServerState where
  userState : List Identity
  messages : List ClientMsg
  deletionTimers : List (String × Nat)
  nextHandle : Nat
  savedFile : Option (List Identity)
deriving DecidableEq, Repr

/-- The state at process start with no roster file present. -/
def initialState : ServerState := ⟨[], [], [], 0, none⟩

/-- JS truthiness of a string-or-undefined value: `undefined`, `null` and the
empty string are falsy. -/
def truthy : Option String → Bool
  | none => false
  | some s => !(s == "")

/-- `saveUserState()`: write the current roster to the state file. -/
def saveUserState (st : ServerState) : ServerState :=
  { st with savedFile := some st.userState }

/-- `broadcastUserState()` and the inline copies of it: send the serialized
roster to every client whose `readyState` is `OPEN`. -/
def broadcastUserState (st : ServerState) (conns : List Conn) :
    List (Nat × Payload) :=
  (conns.filter (fun c => c.isOpen)).map
    (fun c => (c.cid, Payload.roster st.userState))

/-- `cancelDeletion(userId)`: if a timer is armed for this user, clear it and
drop its map entry. -/
def cancelDeletion (uid : String) (st : ServerState) : ServerState :=
  { st with
    deletionTimers := st.deletionTimers.filter (fun p => !(p.1 == uid)) }

/-- `cancelDeletion` applied to a possibly-undefined id (the `join` branch
passes `receivedMSG.user.id` unchecked); `cancelDeletion(undefined)` finds no
map entry and does nothing. -/
def cancelDeletionOpt : Option String → ServerState → ServerState
  | none, st => st
  | some s, st => cancelDeletion s st

/-- `scheduleDeletion(userId)`: clear any existing timer for this user, then
arm a fresh one-shot timer (a fresh handle from the counter). -/
def scheduleDeletion (uid : String) (st : ServerState) : ServerState :=
  { st with
    deletionTimers :=
      (uid, st.nextHandle) ::
        st.deletionTimers.filter (fun p => !(p.1 == uid)),
    nextHandle := st.nextHandle + 1 }

/-- The body of the `setTimeout` callback armed by `scheduleDeletion`:
`findIndex` on the roster; if found, `splice` it out, `saveUserState()`,
`broadcastUserState()`; in either case delete the timer map entry. -/
def fireDeletion (uid : String) (st : ServerState) (conns : List Conn) :
    ServerState × List (Nat × Payload) :=
  if st.userState.any (fun u => u.id == uid) then
    let st1 := saveUserState
      { st with userState := st.userState.eraseP (fun u => u.id == uid) }
    ({ st1 with
        deletionTimers := st1.deletionTimers.filter (fun p => !(p.1 == uid)) },
      broadcastUserState st1 conns)
  else
    ({ st with
        deletionTimers := st.deletionTimers.filter (fun p => !(p.1 == uid)) },
      [])

/-- An HTTP response written by a route handler: its status code, whether the
JSON body carried `status: ok`, and the created user if any. -/
structure HttpResp where
  status : Nat
  ok : Bool
  user : Option Identity
deriving DecidableEq, Repr

/-- The observable outcome of one `POST /new-user` request: the ordered list
of responses the handler attempts to write, the websocket sends it performs,
and the new server state. -/
structure RegResult where
  responses : List HttpResp
  sends : List (Nat × Payload)
  st : ServerState
deriving DecidableEq, Repr

/-- The `name` field of a parsed JSON request body (an object given as
key/value pairs); `none` is JS `undefined`. -/
def bodyName (body : List (String × String)) : Option String :=
  (body.find? (fun p => p.1 == "name")).map (fun p => p.2)

/-- `app.post("/new-user")`.  Note the missing `return` after the empty-body
400 response in the source: the handler keeps executing, so on an empty body
it writes the 400 and then still runs the registration logic (the second
response write errors at runtime in Node, after the state change and the
persistence write have already happened). -/
def newUser (body : List (String × String)) (freshId : String)
    (st : ServerState) (conns : List Conn) : RegResult :=
  let pre : List HttpResp := if body.isEmpty then [⟨400, false, none⟩] else []
  let name := bodyName body
  match st.userState.find? (fun u => u.name == name) with
  | none =>
      let nu : Identity := ⟨freshId, name⟩
      let st2 := saveUserState { st with userState := st.userState ++ [nu] }
      ⟨pre ++ [⟨200, true, some nu⟩], broadcastUserState st2 conns, st2⟩
  | some _ => ⟨pre ++ [⟨409, false, none⟩], [], st⟩

/-- An inbound websocket frame: either valid JSON (already parsed) or
malformed, in which case `JSON.parse` throws. -/
inductive Frame where
  | malformed
  | ok (m : ClientMsg)
deriving DecidableEq, Repr

/-- The outcome of the `message` handler running to completion: the updated
closure variable `currentUserId`, the new shared state, and the sends it
performed in order. -/
structure MsgResult where
  cur : Option String
  st : ServerState
  sends : List (Nat × Payload)
deriving DecidableEq, Repr

/-- The opening block of the `message` handler: if the parsed message has a
truthy `user.id`, adopt it as `currentUserId` and cancel any pending deletion
for it. -/
def announcePre (m : ClientMsg) (cur : Option String) (st : ServerState) :
    Option String × ServerState :=
  match m.user with
  | some u =>
      match u.id with
      | some s => if s = "" then (cur, st) else (some s, cancelDeletion s st)
      | none => (cur, st)
  | none => (cur, st)

/-- The `message` handler on a successfully parsed frame: the announce
preamble, then the `exit` branch (schedule deletion if an id is current, then
broadcast the roster unconditionally and return), else the `send` branch
(append to history, re-broadcast the raw frame to every open client), then
the `join` branch (adopt `user.id`, cancel its deletion, and replay the
history envelope to this connection if the history is nonempty). -/
def handleMsgOk (m : ClientMsg) (selfCid : Nat) (cur : Option String)
    (st : ServerState) (conns : List Conn) : MsgResult :=
  let p := announcePre m cur st
  if m.type = some "exit" then
    let st2 :=
      match p.1 with
      | some s => if s = "" then p.2 else scheduleDeletion s p.2
      | none => p.2
    ⟨p.1, st2, broadcastUserState st2 conns⟩
  else
    let sendPart :=
      if m.type = some "send" then
        ({ p.2 with messages := p.2.messages ++ [m] },
          (conns.filter (fun c => c.isOpen)).map
            (fun c => (c.cid, Payload.raw m)))
      else (p.2, ([] : List (Nat × Payload)))
    if m.type = some "join" then
      match m.user with
      | some u =>
          let st3 := cancelDeletionOpt u.id sendPart.1
          let replay :=
            if st3.messages.isEmpty then ([] : List (Nat × Payload))
            else [(selfCid, Payload.history st3.messages)]
          ⟨u.id, st3, sendPart.2 ++ replay⟩
      | none => ⟨p.1, sendPart.1, sendPart.2⟩
    else ⟨p.1, sendPart.1, sendPart.2⟩

/-- `ws.on("message")`: `JSON.parse(msg)` throws on a malformed frame, and
there is no try/catch around it, so the handler raises an uncaught
exception; otherwise the parsed message is processed. -/
def handleMessage (frame : Frame) (selfCid : Nat) (cur : Option String)
    (st : ServerState) (conns : List Conn) : Except Unit MsgResult :=
  match frame with
  | Frame.malformed => Except.error ()
  | Frame.ok m => Except.ok (handleMsgOk m selfCid cur st conns)

/-- `ws.on("close")`: only when `currentUserId` is truthy schedule its
deletion and broadcast the roster; a connection that never announced an
identity triggers nothing at all. -/
def handleClose (cur : Option String) (st : ServerState)
    (conns : List Conn) : ServerState × List (Nat × Payload) :=
  match cur with
  | some s =>
      if s = "" then (st, [])
      else
        let st1 := scheduleDeletion s st
        (st1, broadcastUserState st1 conns)
  | none => (st, [])

/-- The tail of `wsServer.on("connection")`: broadcast the serialized roster
to every open client (`wsServer.clients` already contains the new
connection at this point). -/
def admitSends (st : ServerState) (conns : List Conn) :
    List (Nat × Payload) :=
  broadcastUserState st conns

/-- An external stimulus to the server process. -/
inductive Action where
  | postNewUser (body : List (String × String)) (freshId : String)
  | wsConnect (cid : Nat)
  | wsMessage (cid : Nat) (frame : Frame)
  | wsClose (cid : Nat)
  | timerFire (uid : String) (h : Nat)
deriving DecidableEq, Repr

/-- Whole-process state: shared server state plus the connection set. -/
structure Sys where
  st : ServerState
  conns : List Conn
deriving DecidableEq, Repr

/-- Update the closure variable `currentUserId` of one connection. -/
def setCur (cid : Nat) (cur : Option String) (conns : List Conn) :
    List Conn :=
  conns.map (fun c => if c.cid == cid then { c with cur := cur } else c)

/-- Mark one connection's transport as closed. -/
def closeConn (cid : Nat) (conns : List Conn) : List Conn :=
  conns.map (fun c => if c.cid == cid then { c with isOpen := false } else c)

/-- The closure variable `currentUserId` of the connection `cid`, if such a
connection exists. -/
def connCur (s : Sys) (cid : Nat) : Option String :=
  match s.conns.find? (fun c => c.cid == cid) with
  | some c => c.cur
  | none => none

/-- One event-loop step of the process.  `none` models the process dying of
an uncaught exception (the only such case is a malformed frame on an open
connection).  A fired timer whose handle is no longer the armed one for its
user (it was cleared by `clearTimeout`) never runs, modelled as a no-op. -/
def step (a : Action) (s : Sys) :
    Option (Sys × List (Nat × Payload)) :=
  match a with
  | Action.postNewUser body fid =>
      let r := newUser body fid s.st s.conns
      some (⟨r.st, s.conns⟩, r.sends)
  | Action.wsConnect cid =>
      let conns1 := s.conns ++ [⟨cid, true, none⟩]
      some (⟨s.st, conns1⟩, admitSends s.st conns1)
  | Action.wsMessage cid frame =>
      match s.conns.find? (fun c => c.cid == cid) with
      | none => some (s, [])
      | some c =>
          if c.isOpen then
            match handleMessage frame cid c.cur s.st s.conns with
            | Except.error _ => none
            | Except.ok r =>
                some (⟨r.st, setCur cid r.cur s.conns⟩, r.sends)
          else some (s, [])
  | Action.wsClose cid =>
      match s.conns.find? (fun c => c.cid == cid) with
      | none => some (s, [])
      | some c =>
          if c.isOpen then
            let conns1 := closeConn cid s.conns
            let r := handleClose c.cur s.st conns1
            some (⟨r.1, conns1⟩, r.2)
          else some (s, [])
  | Action.timerFire uid h =>
      if (uid, h) ∈ s.st.deletionTimers then
        let r := fireDeletion uid s.st s.conns
        some (⟨r.1, s.conns⟩, r.2)
      else some (s, [])

/-- Run a list of actions in order, collecting all sends; `none` as soon as
one step crashes. -/
def runActs : List Action → Sys → Option (Sys × List (Nat × Payload))
  | [], s => some (s, [])
  | a :: rest, s =>
      match step a s with
      | none => none
      | some (s1, outs1) =>
          match runActs rest s1 with
          | none => none
          | some (s2, outs2) => some (s2, outs1 ++ outs2)

/-! ### Small facts about the state operations -/

/-- Neither branch of the announce preamble touches the history buffer. -/
theorem announcePre_messages (m : ClientMsg) (cur : Option String)
    (st : ServerState) : (announcePre m cur st).2.messages = st.messages := by
  obtain ⟨ty, usr, rest⟩ := m
  cases usr with
  | none => rfl
  | some u =>
      obtain ⟨uid, uname⟩ := u
      cases uid with
      | none => rfl
      | some s =>
          by_cases hs : s = "" <;> simp [announcePre, hs, cancelDeletion]

/-- Cancelling a (possibly undefined) deletion touches only the timer map. -/
theorem cancelDeletionOpt_messages (o : Option String) (st : ServerState) :
    (cancelDeletionOpt o st).messages = st.messages := by
  cases o <;> simp [cancelDeletionOpt, cancelDeletion]

/-! ### Concrete fixtures used by witnesses and counterexamples -/

/-- A roster holding one registered identity. -/
def stAlice : ServerState := ⟨[⟨"A", some "alice"⟩], [], [], 0, none⟩

/-- A single open connection that has not announced an identity. -/
def connOpen0 : Conn := ⟨0, true, none⟩

/-! ### Claim C1 -/

/-- Claim C1 (counterexample): an inbound frame that is not valid JSON is not
logged and dropped with the state unchanged: on a state with one open
connection, processing the malformed frame makes the step relation return
`none`, i.e. the uncaught `JSON.parse` exception kills the process. -/
theorem malformed_frame_drop_cex :
    step (Action.wsMessage 0 Frame.malformed) ⟨stAlice, [connOpen0]⟩ = none := by
  rfl

/-- Claim C1 (amended): for every inbound frame that is not valid JSON
arriving on any open connection, `JSON.parse` throws before any shared-state
change and nothing catches the exception: the message handler propagates the
error and the process step dies, instead of logging and dropping the
message. -/
theorem malformed_frame_kills_process (s : Sys) (cid : Nat) (c : Conn)
    (hfind : s.conns.find? (fun x => x.cid == cid) = some c)
    (hopen : c.isOpen = true) :
    handleMessage Frame.malformed cid c.cur s.st s.conns = Except.error () ∧
    step (Action.wsMessage cid Frame.malformed) s = none := by
  refine ⟨rfl, ?_⟩
  simp [step, hfind, hopen, handleMessage]

theorem malformed_frame_kills_process_witness :
    handleMessage Frame.malformed 0 connOpen0.cur stAlice [connOpen0]
        = Except.error () ∧
    step (Action.wsMessage 0 Frame.malformed) ⟨stAlice, [connOpen0]⟩ = none :=
  malformed_frame_kills_process ⟨stAlice, [connOpen0]⟩ 0 connOpen0
    (by decide) (by decide)

/-! ### Claim C2 -/

/-- Claim C2 (code bug): a registration request with an empty body is not a
pure bad-request failure.  The handler writes the 400 error response but,
lacking a `return`, falls through: it also appends an identity with an
undefined name to the roster, persists the roster, broadcasts it, and
attempts a second (success) response for the same request. -/
theorem empty_body_registers_anyway :
    newUser [] "uuid-1" initialState [connOpen0] =
      ⟨[⟨400, false, none⟩, ⟨200, true, some ⟨"uuid-1", none⟩⟩],
        [(0, Payload.roster [⟨"uuid-1", none⟩])],
        ⟨[⟨"uuid-1", none⟩], [], [], 0, some [⟨"uuid-1", none⟩]⟩⟩ := by
  rfl

/-! ### Claim C4 -/

/-- Claim C4 (counterexample): for a connection that never announced an
identity, an inbound "exit" event and a transport-level close do not behave
identically: the exit broadcasts a roster snapshot to the open connections
while the close sends nothing. -/
theorem exit_close_identical_cex :
    (handleMsgOk ⟨some "exit", none, ""⟩ 0 none stAlice [connOpen0]).sends ≠
      (handleClose none stAlice [connOpen0]).2 := by
  decide

/-- Claim C4 (amended): both paths schedule eviction under the same condition
(a truthy last-announced identity), and when that condition holds the two
paths produce identical state and sends; but the broadcast conditions
differ: a user-less "exit" always broadcasts the roster snapshot, while a
transport close of a connection that never announced an identity changes
nothing and sends nothing. -/
theorem exit_close_agreement (rest : String) (cid : Nat)
    (cur : Option String) (st : ServerState) (conns : List Conn) :
    (truthy cur = true →
      handleClose cur st conns =
        ((handleMsgOk ⟨some "exit", none, rest⟩ cid cur st conns).st,
          (handleMsgOk ⟨some "exit", none, rest⟩ cid cur st conns).sends)) ∧
    (truthy cur = false →
      (handleMsgOk ⟨some "exit", none, rest⟩ cid cur st conns).st = st ∧
      (handleMsgOk ⟨some "exit", none, rest⟩ cid cur st conns).sends =
        broadcastUserState st conns ∧
      handleClose cur st conns = (st, [])) := by
  constructor
  · intro htr
    cases cur with
    | none => simp [truthy] at htr
    | some s =>
        have hs : ¬ s = "" := by simpa [truthy] using htr
        simp [handleMsgOk, announcePre, handleClose, hs]
  · intro hf
    cases cur with
    | none => simp [handleMsgOk, announcePre, handleClose]
    | some s =>
        have hs : s = "" := by simpa [truthy] using hf
        subst hs
        simp [handleMsgOk, announcePre, handleClose]

theorem exit_close_agreement_witness :
    handleClose (some "A") stAlice [connOpen0] =
      ((handleMsgOk ⟨some "exit", none, ""⟩ 0 (some "A") stAlice
          [connOpen0]).st,
        (handleMsgOk ⟨some "exit", none, ""⟩ 0 (some "A") stAlice
          [connOpen0]).sends) :=
  (exit_close_agreement "" 0 (some "A") stAlice [connOpen0]).1 (by decide)

/-! ### Claim C6 -/

/-- Claim C6 (counterexample): admitting connection 1 does not scope the
roster snapshot to the new connection: the previously open connection 0
receives the snapshot as well. -/
theorem admit_scoped_cex :
    step (Action.wsConnect 1) ⟨stAlice, [connOpen0]⟩ =
      some (⟨stAlice, [connOpen0, ⟨1, true, none⟩]⟩,
        [(0, Payload.roster [⟨"A", some "alice"⟩]),
          (1, Payload.roster [⟨"A", some "alice"⟩])]) := by
  rfl

/-- Claim C6 (amended): when a new connection is admitted, the current roster
snapshot is broadcast to every open connection: the new connection receives
it, and so does every previously open connection. -/
theorem admit_broadcasts_to_all (s : Sys) (cid : Nat) (c : Conn)
    (hc : c ∈ s.conns) (hopen : c.isOpen = true) :
    ∃ s1 outs, step (Action.wsConnect cid) s = some (s1, outs) ∧
      (cid, Payload.roster s.st.userState) ∈ outs ∧
      (c.cid, Payload.roster s.st.userState) ∈ outs := by
  refine ⟨_, _, rfl, ?_, ?_⟩
  · simp only [admitSends, broadcastUserState, List.mem_map, List.mem_filter]
    exact ⟨⟨cid, true, none⟩, ⟨List.mem_append_right _ (by simp), rfl⟩, rfl⟩
  · simp only [admitSends, broadcastUserState, List.mem_map, List.mem_filter]
    exact ⟨c, ⟨List.mem_append_left _ hc, hopen⟩, rfl⟩

theorem admit_broadcasts_to_all_witness :
    ∃ s1 outs, step (Action.wsConnect 1) ⟨stAlice, [connOpen0]⟩
        = some (s1, outs) ∧
      (1, Payload.roster stAlice.userState) ∈ outs ∧
      (connOpen0.cid, Payload.roster stAlice.userState) ∈ outs :=
  admit_broadcasts_to_all ⟨stAlice, [connOpen0]⟩ 1 connOpen0
    (by decide) (by decide)

/-! ### Claim C10 -/

/-- Claim C10: on a "join" event the history envelope is sent to the joining
connection exactly when the event carries a user object and the history
buffer is nonempty: a join without a user leaves the whole state, the
association and the timers unchanged and sends nothing; a join with a user
but empty history associates `user.id` but sends no envelope; a join with a
user and nonempty history sends exactly the history envelope to the joining
connection. -/
theorem join_replay_conditions (m : ClientMsg) (cid : Nat)
    (cur : Option String) (st : ServerState) (conns : List Conn)
    (hty : m.type = some "join") :
    (m.user = none → handleMsgOk m cid cur st conns = ⟨cur, st, []⟩) ∧
    (∀ u, m.user = some u → st.messages = [] →
      (handleMsgOk m cid cur st conns).sends = [] ∧
      (handleMsgOk m cid cur st conns).cur = u.id) ∧
    (∀ u, m.user = some u → st.messages ≠ [] →
      (handleMsgOk m cid cur st conns).sends =
        [(cid, Payload.history st.messages)] ∧
      (handleMsgOk m cid cur st conns).cur = u.id) := by
  refine ⟨?_, ?_, ?_⟩
  · intro hu
    simp [handleMsgOk, announcePre, hty, hu]
  · intro u hu hmsg
    have h1 := announcePre_messages m cur st
    have h2 := cancelDeletionOpt_messages u.id (announcePre m cur st).2
    simp [handleMsgOk, hty, hu, h2, h1, hmsg]
  · intro u hu hmsg
    have h1 := announcePre_messages m cur st
    have h2 := cancelDeletionOpt_messages u.id (announcePre m cur st).2
    simp [handleMsgOk, hty, hu, h2, h1, hmsg]

theorem join_replay_conditions_witness :
    handleMsgOk ⟨some "join", none, ""⟩ 0 (some "B") stAlice [connOpen0]
      = ⟨some "B", stAlice, []⟩ :=
  (join_replay_conditions ⟨some "join", none, ""⟩ 0 (some "B") stAlice
      [connOpen0] rfl).1 rfl

/-! ### Claim C3 -/

/-- Claim C3 (counterexample): after an "exit" on a connection whose
announced identity is "A", the same connection's later "send" IS appended to
history and broadcast, and a later user-bearing frame DOES cancel the
eviction scheduled at exit. -/
theorem exit_session_closed_cex :
    (let r1 := handleMsgOk ⟨some "exit", none, ""⟩ 0 (some "A") stAlice
        [connOpen0]
     let r2 := handleMsgOk ⟨some "send", none, "hi"⟩ 0 r1.cur r1.st
        [connOpen0]
     let r3 := handleMsgOk ⟨some "send", some ⟨some "A", some "alice"⟩, "hi"⟩
        0 r1.cur r1.st [connOpen0]
     r2.st.messages ≠ [] ∧ r2.sends ≠ [] ∧
       r1.st.deletionTimers ≠ [] ∧ r3.st.deletionTimers = []) := by
  decide

/-- Claim C3 (amended): processing an "exit" does not close the session; the
handler keeps processing later events on the same connection.  The exit does
schedule eviction of the announced identity, but a later "send" is still
appended to history and broadcast to every open connection, and a later
user-bearing frame announcing that identity cancels the eviction scheduled
at the exit. -/
theorem exit_session_still_live (a : String) (ha : a ≠ "")
    (cid : Nat) (st : ServerState) (conns : List Conn) (m : ClientMsg)
    (hty : m.type = some "send") (hu : m.user = none)
    (u : UserRef) (hui : u.id = some a) (rest : String)
    (r1 : MsgResult)
    (hr1 : r1 = handleMsgOk ⟨some "exit", none, rest⟩ cid (some a) st conns) :
    ((a, st.nextHandle) ∈ r1.st.deletionTimers) ∧
    ((handleMsgOk m cid r1.cur r1.st conns).st.messages
        = st.messages ++ [m] ∧
      (handleMsgOk m cid r1.cur r1.st conns).sends
        = (conns.filter (fun c => c.isOpen)).map
            (fun c => (c.cid, Payload.raw m))) ∧
    (∀ h, (a, h) ∉ (handleMsgOk ⟨some "join", some u, rest⟩ cid r1.cur r1.st
        conns).st.deletionTimers) := by
  subst hr1
  have hx : handleMsgOk ⟨some "exit", none, rest⟩ cid (some a) st conns =
      ⟨some a, scheduleDeletion a st,
        broadcastUserState (scheduleDeletion a st) conns⟩ := by
    simp [handleMsgOk, announcePre, ha]
  simp only [hx]
  refine ⟨?_, ⟨?_, ?_⟩, ?_⟩
  · simp [scheduleDeletion]
  · simp [handleMsgOk, announcePre, hty, hu, scheduleDeletion]
  · simp [handleMsgOk, announcePre, hty, hu]
  · intro h
    simp only [handleMsgOk, announcePre, hui]
    simp [ha, cancelDeletionOpt, cancelDeletion, List.mem_filter]

theorem exit_session_still_live_witness :
    ((("A" : String), stAlice.nextHandle)
        ∈ (handleMsgOk ⟨some "exit", none, ""⟩ 0 (some "A") stAlice
            [connOpen0]).st.deletionTimers) ∧
    ((handleMsgOk ⟨some "send", none, "hi"⟩ 0
        (handleMsgOk ⟨some "exit", none, ""⟩ 0 (some "A") stAlice
          [connOpen0]).cur
        (handleMsgOk ⟨some "exit", none, ""⟩ 0 (some "A") stAlice
          [connOpen0]).st [connOpen0]).st.messages
        = stAlice.messages ++ [⟨some "send", none, "hi"⟩] ∧
      (handleMsgOk ⟨some "send", none, "hi"⟩ 0
        (handleMsgOk ⟨some "exit", none, ""⟩ 0 (some "A") stAlice
          [connOpen0]).cur
        (handleMsgOk ⟨some "exit", none, ""⟩ 0 (some "A") stAlice
          [connOpen0]).st [connOpen0]).sends
        = ([connOpen0].filter (fun c => c.isOpen)).map
            (fun c => (c.cid, Payload.raw ⟨some "send", none, "hi"⟩))) ∧
    (∀ h, ("A", h) ∉ (handleMsgOk
        ⟨some "join", some ⟨some "A", some "alice"⟩, ""⟩ 0
        (handleMsgOk ⟨some "exit", none, ""⟩ 0 (some "A") stAlice
          [connOpen0]).cur
        (handleMsgOk ⟨some "exit", none, ""⟩ 0 (some "A") stAlice
          [connOpen0]).st [connOpen0]).st.deletionTimers) :=
  exit_session_still_live "A" (by decide) 0 stAlice [connOpen0]
    ⟨some "send", none, "hi"⟩ rfl rfl ⟨some "A", some "alice"⟩ rfl ""
    (handleMsgOk ⟨some "exit", none, ""⟩ 0 (some "A") stAlice [connOpen0])
    rfl

/-! ### Claim C9 -/

/-- Process a list of already-parsed frames arriving in order on one
connection, threading `currentUserId` and the shared state. -/
def runMsgsOk (msgs : List ClientMsg) (cid : Nat) (cur : Option String)
    (st : ServerState) (conns : List Conn) : Option String × ServerState :=
  match msgs with
  | [] => (cur, st)
  | m :: rest =>
      let r := handleMsgOk m cid cur st conns
      runMsgsOk rest cid r.cur r.st conns

/-- A "send" frame appends exactly itself at the end of the history. -/
theorem handleMsgOk_send_messages (m : ClientMsg) (cid : Nat)
    (cur : Option String) (st : ServerState) (conns : List Conn)
    (hty : m.type = some "send") :
    (handleMsgOk m cid cur st conns).st.messages = st.messages ++ [m] := by
  have h1 := announcePre_messages m cur st
  simp [handleMsgOk, hty, h1]

/-- Claim C9: the history replayed to a joining connection is exactly the
appended "send" messages, in append order, with no gaps and no duplicates:
after any sequence of sends `ms` on top of any prior history, the buffer
equals the prior history followed by `ms` in order, and a join with a user
then replays exactly that sequence in one envelope to the joining
connection. -/
theorem history_replay_exact (ms : List ClientMsg) (cid : Nat)
    (cur : Option String) (st : ServerState) (conns : List Conn)
    (u : UserRef) (rest : String) (cur1 : Option String)
    (hsend : ∀ m ∈ ms, m.type = some "send")
    (hne : st.messages ++ ms ≠ []) :
    (runMsgsOk ms cid cur st conns).2.messages = st.messages ++ ms ∧
    (handleMsgOk ⟨some "join", some u, rest⟩ cid cur1
        (runMsgsOk ms cid cur st conns).2 conns).sends =
      [(cid, Payload.history (st.messages ++ ms))] := by
  have key : ∀ (l : List ClientMsg) (cur0 : Option String)
      (st0 : ServerState), (∀ m ∈ l, m.type = some "send") →
      (runMsgsOk l cid cur0 st0 conns).2.messages = st0.messages ++ l := by
    intro l
    induction l with
    | nil => intro cur0 st0 _; simp [runMsgsOk]
    | cons m tl ih =>
        intro cur0 st0 hall
        have hm : m.type = some "send" := hall m (by simp)
        rw [runMsgsOk]
        rw [ih _ _ (fun x hx => hall x (List.mem_cons_of_mem _ hx))]
        rw [handleMsgOk_send_messages m cid cur0 st0 conns hm]
        simp
  have hmsgs := key ms cur st hsend
  refine ⟨hmsgs, ?_⟩
  have h1 := announcePre_messages ⟨some "join", some u, rest⟩ cur1
    (runMsgsOk ms cid cur st conns).2
  have h2 := cancelDeletionOpt_messages u.id
    (announcePre ⟨some "join", some u, rest⟩ cur1
      (runMsgsOk ms cid cur st conns).2).2
  simp [handleMsgOk, h2, h1, hmsgs, hne]

theorem history_replay_exact_witness :
    (runMsgsOk [⟨some "send", none, "one"⟩, ⟨some "send", none, "two"⟩]
        0 none initialState [connOpen0]).2.messages =
      initialState.messages ++
        [⟨some "send", none, "one"⟩, ⟨some "send", none, "two"⟩] ∧
    (handleMsgOk ⟨some "join", some ⟨some "A", some "alice"⟩, ""⟩ 0 none
        (runMsgsOk [⟨some "send", none, "one"⟩, ⟨some "send", none, "two"⟩]
          0 none initialState [connOpen0]).2 [connOpen0]).sends =
      [(0, Payload.history (initialState.messages ++
        [⟨some "send", none, "one"⟩, ⟨some "send", none, "two"⟩]))] :=
  history_replay_exact
    [⟨some "send", none, "one"⟩, ⟨some "send", none, "two"⟩] 0 none
    initialState [connOpen0] ⟨some "A", some "alice"⟩ "" none
    (by decide) (by decide)

/-! ### Claim C8 -/

/-- The roster names currently present, as the JS values compared by `===`
(`undefined` is a possible value, for identities created without a name). -/
def namesOf (st : ServerState) : List (Option String) :=
  st.userState.map (fun u => u.name)

/-- Run a sequence of registration requests in order, each given the uuid
the runtime would draw for it. -/
def runRegs : List (List (String × String) × String) → ServerState →
    List Conn → ServerState
  | [], st, _ => st
  | (body, fid) :: rest, st, conns =>
      runRegs rest (newUser body fid st conns).st conns

/-- One registration preserves distinctness of roster names: the push only
happens when no present identity has a `===`-equal name. -/
theorem newUser_names_nodup (body : List (String × String)) (fid : String)
    (st : ServerState) (conns : List Conn)
    (hnd : (namesOf st).Nodup) :
    (namesOf (newUser body fid st conns).st).Nodup := by
  cases hfind : st.userState.find? (fun u => u.name == bodyName body) with
  | some u =>
      simp only [newUser, hfind]
      simpa [namesOf] using hnd
  | none =>
      have hnot : bodyName body ∉ namesOf st := by
        intro hmem
        obtain ⟨u, hu, hname⟩ := List.mem_map.mp hmem
        have hfu := List.find?_eq_none.mp hfind u hu
        simp [hname] at hfu
      simp only [newUser, hfind, saveUserState, namesOf, List.map_append,
        List.map_cons, List.map_nil]
      refine List.Nodup.append hnd ?_ ?_
      · simp
      · simp only [List.disjoint_left]
        intro a ha hb
        simp only [List.mem_singleton] at hb
        subst hb
        exact hnot ha

/-- Claim C8: for all sequences of registration calls, at most one identity
per name (case-sensitive exact match) ever exists simultaneously in the
roster: starting from any roster with distinct names (in particular the
empty startup roster), every registration sequence preserves distinctness;
and a registration whose name is already present responds 409 conflict and
leaves the state unchanged (no push, no persistence, no broadcast). -/
theorem register_name_unique :
    (∀ (regs : List (List (String × String) × String)) (st : ServerState)
        (conns : List Conn), (namesOf st).Nodup →
        (namesOf (runRegs regs st conns)).Nodup) ∧
    (∀ (body : List (String × String)) (fid : String) (st : ServerState)
        (conns : List Conn) (n : String), bodyName body = some n →
        some n ∈ namesOf st →
        newUser body fid st conns = ⟨[⟨409, false, none⟩], [], st⟩) := by
  constructor
  · intro regs
    induction regs with
    | nil => intro st conns h; simpa [runRegs] using h
    | cons r rest ih =>
        intro st conns h
        obtain ⟨body, fid⟩ := r
        exact ih _ _ (newUser_names_nodup body fid st conns h)
  · intro body fid st conns n hbn hmem
    have hbody : body.isEmpty = false := by
      cases body with
      | nil => simp [bodyName] at hbn
      | cons p rest => rfl
    obtain ⟨u, hu, hname⟩ := List.mem_map.mp hmem
    cases hfind : st.userState.find? (fun v => v.name == bodyName body) with
    | none =>
        have hfu := List.find?_eq_none.mp hfind u hu
        rw [hbn, hname] at hfu
        simp at hfu
    | some v =>
        simp only [newUser, hfind]
        simp [hbody]

theorem register_name_unique_witness :
    (namesOf (runRegs [([("name", "bob")], "u1"), ([("name", "bob")], "u2")]
        initialState [connOpen0])).Nodup ∧
    newUser [("name", "alice")] "u3" stAlice [connOpen0]
      = ⟨[⟨409, false, none⟩], [], stAlice⟩ :=
  ⟨register_name_unique.1
      [([("name", "bob")], "u1"), ([("name", "bob")], "u2")]
      initialState [connOpen0] (by decide),
    register_name_unique.2 [("name", "alice")] "u3" stAlice [connOpen0]
      "alice" (by decide) (by decide)⟩

/-! ### Claim C7 -/

/-- The timer map holds at most one armed timer per user id. -/
def timersAtMostOne (st : ServerState) : Prop :=
  ∀ id : String, st.deletionTimers.countP (fun p => p.1 == id) ≤ 1

/-- Filtering the timer map cannot increase the number of timers for any
key. -/
theorem countKey_filter_le (q : String × Nat → Bool) (id : String)
    (l : List (String × Nat)) :
    (l.filter q).countP (fun p => p.1 == id) ≤
      l.countP (fun p => p.1 == id) :=
  (List.filter_sublist l).countP_le _

/-- After clearing key `s`, no timer for `s` remains. -/
theorem countKey_filter_self (s : String) (l : List (String × Nat)) :
    (l.filter (fun p => !(p.1 == s))).countP (fun p => p.1 == s) = 0 := by
  rw [List.countP_eq_zero]
  intro a ha
  have h2 := (List.mem_filter.mp ha).2
  simp only [Bool.not_eq_true'] at h2
  simp [h2]

/-- Arming `s` leaves exactly one timer for `s`. -/
theorem countKey_schedule_self (s : String) (st : ServerState) :
    ((scheduleDeletion s st).deletionTimers.countP
        (fun p => p.1 == s)) = 1 := by
  simp [scheduleDeletion, List.countP_cons_of_pos, countKey_filter_self]

/-- `cancelDeletion` preserves the at-most-one-timer invariant. -/
theorem atMostOne_cancel (s : String) (st : ServerState)
    (h : timersAtMostOne st) : timersAtMostOne (cancelDeletion s st) :=
  fun id => le_trans (countKey_filter_le _ id _) (h id)

/-- `cancelDeletionOpt` preserves the at-most-one-timer invariant. -/
theorem atMostOne_cancelOpt (o : Option String) (st : ServerState)
    (h : timersAtMostOne st) : timersAtMostOne (cancelDeletionOpt o st) := by
  cases o with
  | none => exact h
  | some s => exact atMostOne_cancel s st h

/-- `scheduleDeletion` preserves the at-most-one-timer invariant. -/
theorem atMostOne_schedule (s : String) (st : ServerState)
    (h : timersAtMostOne st) : timersAtMostOne (scheduleDeletion s st) := by
  intro id
  by_cases hid : id = s
  · subst hid
    rw [countKey_schedule_self]
  · simp only [scheduleDeletion]
    rw [List.countP_cons_of_neg]
    · exact le_trans (countKey_filter_le _ id _) (h id)
    · simp only [beq_iff_eq]
      exact fun hh => hid hh.symm

/-- The eviction callback preserves the at-most-one-timer invariant. -/
theorem atMostOne_fire (uid : String) (st : ServerState) (conns : List Conn)
    (h : timersAtMostOne st) :
    timersAtMostOne (fireDeletion uid st conns).1 := by
  unfold fireDeletion
  split
  · exact fun id => le_trans (countKey_filter_le _ id _) (h id)
  · exact fun id => le_trans (countKey_filter_le _ id _) (h id)

/-- The announce preamble preserves the at-most-one-timer invariant. -/
theorem atMostOne_announcePre (m : ClientMsg) (cur : Option String)
    (st : ServerState) (h : timersAtMostOne st) :
    timersAtMostOne (announcePre m cur st).2 := by
  obtain ⟨ty, usr, rest⟩ := m
  cases usr with
  | none => exact h
  | some u =>
      obtain ⟨uid, uname⟩ := u
      cases uid with
      | none => exact h
      | some s =>
          by_cases hs : s = "" <;>
            simp [announcePre, hs, atMostOne_cancel, h]

/-- The message handler preserves the at-most-one-timer invariant. -/
theorem atMostOne_handleMsgOk (m : ClientMsg) (cid : Nat)
    (cur : Option String) (st : ServerState) (conns : List Conn)
    (h : timersAtMostOne st) :
    timersAtMostOne (handleMsgOk m cid cur st conns).st := by
  have h1 := atMostOne_announcePre m cur st h
  by_cases hex : m.type = some "exit"
  · simp only [handleMsgOk, if_pos hex]
    cases hp : (announcePre m cur st).1 with
    | none => simpa [hp] using h1
    | some s =>
        by_cases hs : s = "" <;>
          simp [hp, hs, atMostOne_schedule, h1]
  · by_cases hj : m.type = some "join"
    · have hsend : ¬ m.type = some "send" := by rw [hj]; simp
      simp only [handleMsgOk, if_neg hex, if_pos hj, if_neg hsend]
      cases hu : m.user with
      | none => simpa [hu] using h1
      | some u =>
          simp only [hu]
          exact atMostOne_cancelOpt u.id _ h1
    · by_cases hsend : m.type = some "send"
      · simp only [handleMsgOk, if_neg hex, if_pos hsend, if_neg hj]
        exact h1
      · simp only [handleMsgOk, if_neg hex, if_neg hsend, if_neg hj]
        exact h1

/-- `handleClose` preserves the at-most-one-timer invariant. -/
theorem atMostOne_handleClose (cur : Option String) (st : ServerState)
    (conns : List Conn) (h : timersAtMostOne st) :
    timersAtMostOne (handleClose cur st conns).1 := by
  cases cur with
  | none => exact h
  | some s =>
      by_cases hs : s = "" <;>
        simp [handleClose, hs, atMostOne_schedule, h]

/-- `newUser` never touches the timer map. -/
theorem newUser_timers (body : List (String × String)) (fid : String)
    (st : ServerState) (conns : List Conn) :
    (newUser body fid st conns).st.deletionTimers = st.deletionTimers := by
  cases hfind : st.userState.find? (fun u => u.name == bodyName body) with
  | none => simp [newUser, hfind, saveUserState]
  | some u => simp [newUser, hfind]

/-- Claim C7: scheduling an eviction for an id that already has one replaces
it.  Scheduling twice in succession leaves exactly one pending eviction for
the id; the first timer's handle is gone (superseded) and the second is the
one armed; a superseded (cleared) timer firing is a no-op, so exactly one
eventual eviction attempt results; and every process step preserves the
invariant that at most one pending eviction per identity exists. -/
theorem rearm_single_pending :
    (∀ (st : ServerState) (id : String),
      ((scheduleDeletion id (scheduleDeletion id st)).deletionTimers.countP
          (fun p => p.1 == id) = 1) ∧
      (id, st.nextHandle) ∉
        (scheduleDeletion id (scheduleDeletion id st)).deletionTimers ∧
      (id, (scheduleDeletion id st).nextHandle) ∈
        (scheduleDeletion id (scheduleDeletion id st)).deletionTimers) ∧
    (∀ (s : Sys) (id : String) (h : Nat), (id, h) ∉ s.st.deletionTimers →
      step (Action.timerFire id h) s = some (s, [])) ∧
    (∀ (a : Action) (s s1 : Sys) (outs : List (Nat × Payload)),
      step a s = some (s1, outs) → timersAtMostOne s.st →
        timersAtMostOne s1.st) := by
  refine ⟨?_, ?_, ?_⟩
  · intro st id
    refine ⟨countKey_schedule_self id _, ?_, ?_⟩
    · simp [scheduleDeletion, List.mem_filter]
    · simp [scheduleDeletion]
  · intro s id h hnm
    simp [step, hnm]
  · intro a s s1 outs hstep h
    cases a with
    | postNewUser body fid =>
        simp only [step] at hstep
        obtain ⟨h1, h2⟩ := Prod.mk.injEq .. ▸ (Option.some.injEq .. ▸ hstep)
        intro id
        rw [← h1]
        simp only [newUser_timers]
        exact h id
    | wsConnect cid =>
        simp only [step] at hstep
        obtain ⟨h1, h2⟩ := Prod.mk.injEq .. ▸ (Option.some.injEq .. ▸ hstep)
        intro id
        rw [← h1]
        exact h id
    | wsMessage cid frame =>
        cases hf : s.conns.find? (fun c => c.cid == cid) with
        | none =>
            simp only [step, hf] at hstep
            obtain ⟨h1, h2⟩ := Prod.mk.injEq .. ▸ (Option.some.injEq .. ▸ hstep)
            rw [← h1]
            exact h
        | some c =>
            by_cases ho : c.isOpen
            · cases frame with
              | malformed => simp [step, hf, ho, handleMessage] at hstep
              | ok m =>
                  simp only [step, hf, ho, if_pos, handleMessage] at hstep
                  obtain ⟨h1, h2⟩ :=
                    Prod.mk.injEq .. ▸ (Option.some.injEq .. ▸ hstep)
                  intro id
                  rw [← h1]
                  exact atMostOne_handleMsgOk m cid c.cur s.st s.conns h id
            · simp only [step, hf, if_neg ho] at hstep
              obtain ⟨h1, h2⟩ := Prod.mk.injEq .. ▸ (Option.some.injEq .. ▸ hstep)
              rw [← h1]
              exact h
    | wsClose cid =>
        cases hf : s.conns.find? (fun c => c.cid == cid) with
        | none =>
            simp only [step, hf] at hstep
            obtain ⟨h1, h2⟩ := Prod.mk.injEq .. ▸ (Option.some.injEq .. ▸ hstep)
            rw [← h1]
            exact h
        | some c =>
            by_cases ho : c.isOpen
            · simp only [step, hf, if_pos ho] at hstep
              obtain ⟨h1, h2⟩ := Prod.mk.injEq .. ▸ (Option.some.injEq .. ▸ hstep)
              intro id
              rw [← h1]
              exact atMostOne_handleClose c.cur s.st _ h id
            · simp only [step, hf, if_neg ho] at hstep
              obtain ⟨h1, h2⟩ := Prod.mk.injEq .. ▸ (Option.some.injEq .. ▸ hstep)
              rw [← h1]
              exact h
    | timerFire uid hh =>
        by_cases hin : (uid, hh) ∈ s.st.deletionTimers
        · simp only [step, if_pos hin] at hstep
          obtain ⟨h1, h2⟩ := Prod.mk.injEq .. ▸ (Option.some.injEq .. ▸ hstep)
          intro id
          rw [← h1]
          exact atMostOne_fire uid s.st s.conns h id
        · simp only [step, if_neg hin] at hstep
          obtain ⟨h1, h2⟩ := Prod.mk.injEq .. ▸ (Option.some.injEq .. ▸ hstep)
          rw [← h1]
          exact h

theorem rearm_single_pending_witness :
    ((scheduleDeletion "A" (scheduleDeletion "A" stAlice)).deletionTimers.countP
        (fun p => p.1 == "A") = 1) ∧
    step (Action.timerFire "A" 5) ⟨stAlice, [connOpen0]⟩
        = some (⟨stAlice, [connOpen0]⟩, []) ∧
    timersAtMostOne stAlice :=
  ⟨(rearm_single_pending.1 stAlice "A").1,
    rearm_single_pending.2.1 ⟨stAlice, [connOpen0]⟩ "A" 5 (by decide),
    rearm_single_pending.2.2 (Action.wsConnect 1) ⟨stAlice, [connOpen0]⟩
      ⟨stAlice, [connOpen0, ⟨1, true, none⟩]⟩
      [(0, Payload.roster [⟨"A", some "alice"⟩]),
        (1, Payload.roster [⟨"A", some "alice"⟩])]
      rfl (by intro id; simp [stAlice])⟩

/-! ### Claim C5 -/

/-- The events the grace-period premise of claim C5 excludes for identity
`id`: an inbound frame whose user announces `id` (announcement cancels the
pending eviction), a registration that draws `id` itself as the fresh uuid,
and the firing of `id`'s own timer. -/
def touchesId (id : String) : Action → Prop
  | Action.postNewUser _ fid => fid = id
  | Action.wsConnect _ => False
  | Action.wsMessage _ frame =>
      match frame with
      | Frame.malformed => False
      | Frame.ok m => ∃ u, m.user = some u ∧ u.id = some id
  | Action.wsClose _ => False
  | Action.timerFire uid _ => uid = id

/-- A run of successful process steps none of which touches `id`'s pending
eviction. -/
inductive Quiet (id : String) : Sys → Sys → Prop
  | refl (s : Sys) : Quiet id s s
  | step (a : Action) (s s1 s2 : Sys) (outs : List (Nat × Payload)) :
      step a s = some (s1, outs) → ¬ touchesId id a →
      Quiet id s1 s2 → Quiet id s s2

/-- The pending-eviction configuration tracked by claim C5: some timer armed
for `id` and exactly one roster entry carrying `id`. -/
def pendSt (id : String) (st : ServerState) : Prop :=
  (∃ h, (id, h) ∈ st.deletionTimers) ∧
    st.userState.countP (fun u => u.id == id) = 1

/-- Erasing by a predicate disjoint from `p` does not change the
`p`-count. -/
theorem countP_eraseP_disj {α : Type} (p q : α → Bool) (l : List α)
    (hdisj : ∀ x, q x = true → p x = false) :
    (l.eraseP q).countP p = l.countP p := by
  induction l with
  | nil => rfl
  | cons a l ih =>
      by_cases hqa : q a = true
      · rw [List.eraseP_cons_of_pos hqa, List.countP_cons_of_neg]
        simp [hdisj a hqa]
      · rw [List.eraseP_cons_of_neg hqa, List.countP_cons, List.countP_cons,
          ih]

/-- Erasing the unique `p`-element drops the `p`-count to zero. -/
theorem countP_eraseP_self {α : Type} (p : α → Bool) (l : List α)
    (h : l.countP p = 1) : (l.eraseP p).countP p = 0 := by
  induction l with
  | nil => simp at h
  | cons a l ih =>
      by_cases hpa : p a = true
      · rw [List.eraseP_cons_of_pos hpa]
        rw [List.countP_cons_of_pos _ _ hpa] at h
        omega
      · rw [List.eraseP_cons_of_neg hpa]
        rw [List.countP_cons_of_neg _ _ hpa] at h
        rw [List.countP_cons_of_neg _ _ hpa]
        exact ih h

/-- A timer for `id` survives cancelling a different user's timer. -/
theorem hasKey_cancel (id s : String) (hne : s ≠ id) (st : ServerState)
    (h : ∃ hh, (id, hh) ∈ st.deletionTimers) :
    ∃ hh, (id, hh) ∈ (cancelDeletion s st).deletionTimers := by
  obtain ⟨hh, hm⟩ := h
  refine ⟨hh, List.mem_filter.mpr ⟨hm, ?_⟩⟩
  simp [Ne.symm hne]

/-- Scheduling any user keeps some timer armed for `id` (for `id` itself it
re-arms with a fresh handle). -/
theorem hasKey_schedule (id s : String) (st : ServerState)
    (h : ∃ hh, (id, hh) ∈ st.deletionTimers) :
    ∃ hh, (id, hh) ∈ (scheduleDeletion s st).deletionTimers := by
  by_cases hs : s = id
  · subst hs
    exact ⟨st.nextHandle, by simp [scheduleDeletion]⟩
  · obtain ⟨hh, hm⟩ := h
    refine ⟨hh, List.mem_cons_of_mem _ (List.mem_filter.mpr ⟨hm, ?_⟩)⟩
    simp [Ne.symm hs]

/-- A timer for `id` survives cancelling a possibly-undefined other id. -/
theorem hasKey_cancelOpt (id : String) (o : Option String)
    (ho : o ≠ some id) (st : ServerState)
    (h : ∃ hh, (id, hh) ∈ st.deletionTimers) :
    ∃ hh, (id, hh) ∈ (cancelDeletionOpt o st).deletionTimers := by
  cases o with
  | none => exact h
  | some s =>
      refine hasKey_cancel id s ?_ st h
      intro hx
      exact ho (by rw [hx])

/-- A timer for `id` survives another user's eviction callback. -/
theorem hasKey_fire (id uid : String) (hne : uid ≠ id) (st : ServerState)
    (conns : List Conn) (h : ∃ hh, (id, hh) ∈ st.deletionTimers) :
    ∃ hh, (id, hh) ∈ (fireDeletion uid st conns).1.deletionTimers := by
  obtain ⟨hh, hm⟩ := h
  unfold fireDeletion
  split
  · exact ⟨hh, List.mem_filter.mpr ⟨hm, by simp [Ne.symm hne]⟩⟩
  · exact ⟨hh, List.mem_filter.mpr ⟨hm, by simp [Ne.symm hne]⟩⟩

/-- The announce preamble of a frame that does not announce `id` keeps a
timer armed for `id`. -/
theorem hasKey_announcePre (id : String) (m : ClientMsg)
    (cur : Option String) (st : ServerState)
    (hno : ∀ u, m.user = some u → u.id ≠ some id)
    (h : ∃ hh, (id, hh) ∈ st.deletionTimers) :
    ∃ hh, (id, hh) ∈ (announcePre m cur st).2.deletionTimers := by
  obtain ⟨ty, usr, rest⟩ := m
  cases usr with
  | none => exact h
  | some u =>
      obtain ⟨uid, uname⟩ := u
      cases uid with
      | none => exact h
      | some s =>
          by_cases hs : s = ""
          · simpa [announcePre, hs] using h
          · have hne : s ≠ id := by
              intro hx
              exact hno ⟨some s, uname⟩ rfl (by rw [hx])
            simpa [announcePre, hs] using hasKey_cancel id s hne st h

/-- No branch of the announce preamble touches the roster. -/
theorem announcePre_userState (m : ClientMsg) (cur : Option String)
    (st : ServerState) :
    (announcePre m cur st).2.userState = st.userState := by
  obtain ⟨ty, usr, rest⟩ := m
  cases usr with
  | none => rfl
  | some u =>
      obtain ⟨uid, uname⟩ := u
      cases uid with
      | none => rfl
      | some s =>
          by_cases hs : s = "" <;> simp [announcePre, hs, cancelDeletion]

/-- The message handler never touches the roster. -/
theorem handleMsgOk_userState (m : ClientMsg) (cid : Nat)
    (cur : Option String) (st : ServerState) (conns : List Conn) :
    (handleMsgOk m cid cur st conns).st.userState = st.userState := by
  have h1 := announcePre_userState m cur st
  by_cases hex : m.type = some "exit"
  · simp only [handleMsgOk, if_pos hex]
    cases hp : (announcePre m cur st).1 with
    | none => simpa [hp] using h1
    | some s =>
        by_cases hs : s = "" <;> simp [hp, hs, scheduleDeletion, h1]
  · by_cases hj : m.type = some "join"
    · have hsend : ¬ m.type = some "send" := by rw [hj]; simp
      simp only [handleMsgOk, if_neg hex, if_pos hj, if_neg hsend]
      cases hu : m.user with
      | none => simpa [hu] using h1
      | some u =>
          simp only [hu]
          cases hui : u.id with
          | none => simpa [cancelDeletionOpt] using h1
          | some s => simpa [cancelDeletionOpt, cancelDeletion] using h1
    · by_cases hsend : m.type = some "send"
      · simp only [handleMsgOk, if_neg hex, if_pos hsend, if_neg hj]
        exact h1
      · simp only [handleMsgOk, if_neg hex, if_neg hsend, if_neg hj]
        exact h1

/-- The message handler of a frame that does not announce `id` keeps a timer
armed for `id`. -/
theorem hasKey_handleMsgOk (id : String) (m : ClientMsg) (cid : Nat)
    (cur : Option String) (st : ServerState) (conns : List Conn)
    (hno : ∀ u, m.user = some u → u.id ≠ some id)
    (h : ∃ hh, (id, hh) ∈ st.deletionTimers) :
    ∃ hh, (id, hh) ∈ (handleMsgOk m cid cur st conns).st.deletionTimers := by
  have h1 := hasKey_announcePre id m cur st hno h
  by_cases hex : m.type = some "exit"
  · simp only [handleMsgOk, if_pos hex]
    cases hp : (announcePre m cur st).1 with
    | none => simpa [hp] using h1
    | some s =>
        by_cases hs : s = ""
        · simpa [hp, hs] using h1
        · simpa [hp, hs] using hasKey_schedule id s _ h1
  · by_cases hj : m.type = some "join"
    · have hsend : ¬ m.type = some "send" := by rw [hj]; simp
      simp only [handleMsgOk, if_neg hex, if_pos hj, if_neg hsend]
      cases hu : m.user with
      | none => simpa [hu] using h1
      | some u =>
          simp only [hu]
          exact hasKey_cancelOpt id u.id (fun hx => hno u hu hx) _ h1
    · by_cases hsend : m.type = some "send"
      · simp only [handleMsgOk, if_neg hex, if_pos hsend, if_neg hj]
        exact h1
      · simp only [handleMsgOk, if_neg hex, if_neg hsend, if_neg hj]
        exact h1

/-- `handleClose` never touches the roster. -/
theorem handleClose_userState (cur : Option String) (st : ServerState)
    (conns : List Conn) :
    (handleClose cur st conns).1.userState = st.userState := by
  cases cur with
  | none => rfl
  | some s =>
      by_cases hs : s = "" <;> simp [handleClose, hs, scheduleDeletion]

/-- `handleClose` keeps a timer armed for `id` (a close either leaves the
timers alone or re-arms some user's timer). -/
theorem hasKey_handleClose (id : String) (cur : Option String)
    (st : ServerState) (conns : List Conn)
    (h : ∃ hh, (id, hh) ∈ st.deletionTimers) :
    ∃ hh, (id, hh) ∈ (handleClose cur st conns).1.deletionTimers := by
  cases cur with
  | none => exact h
  | some s =>
      by_cases hs : s = ""
      · simpa [handleClose, hs] using h
      · simpa [handleClose, hs] using hasKey_schedule id s st h

/-- Registration with a fresh uuid other than `id` preserves `id`'s roster
count. -/
theorem newUser_countId (id : String) (body : List (String × String))
    (fid : String) (hne : fid ≠ id) (st : ServerState) (conns : List Conn) :
    (newUser body fid st conns).st.userState.countP (fun u => u.id == id) =
      st.userState.countP (fun u => u.id == id) := by
  cases hfind : st.userState.find? (fun u => u.name == bodyName body) with
  | none => simp [newUser, hfind, saveUserState, hne]
  | some u => simp [newUser, hfind]

/-- One non-touching process step preserves the pending-eviction
configuration for `id`. -/
theorem pendSt_step (id : String) (a : Action) (s s1 : Sys)
    (outs : List (Nat × Payload))
    (hstep : step a s = some (s1, outs)) (hq : ¬ touchesId id a)
    (hp : pendSt id s.st) : pendSt id s1.st := by
  obtain ⟨hkey, hcnt⟩ := hp
  cases a with
  | postNewUser body fid =>
      have hne : fid ≠ id := hq
      simp only [step] at hstep
      obtain ⟨h1, h2⟩ := Prod.mk.injEq .. ▸ (Option.some.injEq .. ▸ hstep)
      rw [← h1]
      exact ⟨by simpa [newUser_timers] using hkey,
        by rw [newUser_countId id body fid hne s.st s.conns]; exact hcnt⟩
  | wsConnect cid =>
      simp only [step] at hstep
      obtain ⟨h1, h2⟩ := Prod.mk.injEq .. ▸ (Option.some.injEq .. ▸ hstep)
      rw [← h1]
      exact ⟨hkey, hcnt⟩
  | wsMessage cid frame =>
      cases hf : s.conns.find? (fun c => c.cid == cid) with
      | none =>
          simp only [step, hf] at hstep
          obtain ⟨h1, h2⟩ := Prod.mk.injEq .. ▸ (Option.some.injEq .. ▸ hstep)
          rw [← h1]
          exact ⟨hkey, hcnt⟩
      | some c =>
          by_cases ho : c.isOpen
          · cases frame with
            | malformed => simp [step, hf, ho, handleMessage] at hstep
            | ok m =>
                have hno : ∀ u, m.user = some u → u.id ≠ some id := by
                  intro u hu hui
                  exact hq ⟨u, hu, hui⟩
                simp only [step, hf, ho, if_pos, handleMessage] at hstep
                obtain ⟨h1, h2⟩ :=
                  Prod.mk.injEq .. ▸ (Option.some.injEq .. ▸ hstep)
                rw [← h1]
                exact ⟨hasKey_handleMsgOk id m cid c.cur s.st s.conns hno hkey,
                  by rw [handleMsgOk_userState]; exact hcnt⟩
          · simp only [step, hf, if_neg ho] at hstep
            obtain ⟨h1, h2⟩ := Prod.mk.injEq .. ▸ (Option.some.injEq .. ▸ hstep)
            rw [← h1]
            exact ⟨hkey, hcnt⟩
  | wsClose cid =>
      cases hf : s.conns.find? (fun c => c.cid == cid) with
      | none =>
          simp only [step, hf] at hstep
          obtain ⟨h1, h2⟩ := Prod.mk.injEq .. ▸ (Option.some.injEq .. ▸ hstep)
          rw [← h1]
          exact ⟨hkey, hcnt⟩
      | some c =>
          by_cases ho : c.isOpen
          · simp only [step, hf, if_pos ho] at hstep
            obtain ⟨h1, h2⟩ := Prod.mk.injEq .. ▸ (Option.some.injEq .. ▸ hstep)
            rw [← h1]
            exact ⟨hasKey_handleClose id c.cur s.st _ hkey,
              by rw [handleClose_userState]; exact hcnt⟩
          · simp only [step, hf, if_neg ho] at hstep
            obtain ⟨h1, h2⟩ := Prod.mk.injEq .. ▸ (Option.some.injEq .. ▸ hstep)
            rw [← h1]
            exact ⟨hkey, hcnt⟩
  | timerFire uid hh =>
      have hne : uid ≠ id := hq
      by_cases hin : (uid, hh) ∈ s.st.deletionTimers
      · simp only [step, if_pos hin] at hstep
        obtain ⟨h1, h2⟩ := Prod.mk.injEq .. ▸ (Option.some.injEq .. ▸ hstep)
        rw [← h1]
        refine ⟨hasKey_fire id uid hne s.st s.conns hkey, ?_⟩
        have hdisj : ∀ x : Identity, (x.id == uid) = true →
            (x.id == id) = false := by
          intro x hx
          have : x.id = uid := by simpa using hx
          simp [this, hne]
        unfold fireDeletion
        split
        · simp only [saveUserState]
          rw [countP_eraseP_disj _ _ _ hdisj]
          exact hcnt
        · exact hcnt
      · simp only [step, if_neg hin] at hstep
        obtain ⟨h1, h2⟩ := Prod.mk.injEq .. ▸ (Option.some.injEq .. ▸ hstep)
        rw [← h1]
        exact ⟨hkey, hcnt⟩

/-- A quiet run preserves the pending-eviction configuration. -/
theorem Quiet_pendSt (id : String) (s s2 : Sys) (hq : Quiet id s s2)
    (hp : pendSt id s.st) : pendSt id s2.st := by
  induction hq with
  | refl s => exact hp
  | step a s s1 s2 outs hstep hnt htail ih =>
      exact ih (pendSt_step id a s s1 outs hstep hnt hp)

/-- Firing the armed timer of an identity present exactly once in the roster
erases it, persists the new roster, clears the timer entry, and broadcasts
the post-removal roster to every open connection. -/
theorem fire_conclusion (id : String) (h : Nat) (s : Sys)
    (hmem : (id, h) ∈ s.st.deletionTimers)
    (hcnt : s.st.userState.countP (fun u => u.id == id) = 1) :
    step (Action.timerFire id h) s =
      some (⟨⟨s.st.userState.eraseP (fun u => u.id == id),
              s.st.messages,
              s.st.deletionTimers.filter (fun p => !(p.1 == id)),
              s.st.nextHandle,
              some (s.st.userState.eraseP (fun u => u.id == id))⟩,
             s.conns⟩,
        (s.conns.filter (fun c => c.isOpen)).map
          (fun c => (c.cid, Payload.roster
            (s.st.userState.eraseP (fun u => u.id == id))))) := by
  have hany : s.st.userState.any (fun u => u.id == id) = true := by
    rw [List.any_eq_true]
    have hpos : 0 < s.st.userState.countP (fun u => u.id == id) := by omega
    obtain ⟨x, hx, hpx⟩ := List.countP_pos_iff.mp hpos
    exact ⟨x, hx, hpx⟩
  simp [step, hmem, fireDeletion, hany, saveUserState, broadcastUserState]

/-- Claim C5: if a deletion is scheduled for `id` while `id` has exactly one
roster entry, and no later event announces `id`, re-registers `id` or fires
`id`'s timer, then `id`'s timer stays armed and when it fires the identity
is removed from the roster, the new roster is persisted, and a
roster-snapshot broadcast to every open connection follows the removal. -/
theorem eviction_after_grace (id : String) (s0 s1 : Sys)
    (hpend : ∃ h, (id, h) ∈ s0.st.deletionTimers)
    (hros : s0.st.userState.countP (fun u => u.id == id) = 1)
    (hq : Quiet id s0 s1) :
    (∃ h, (id, h) ∈ s1.st.deletionTimers) ∧
    (∀ h, (id, h) ∈ s1.st.deletionTimers →
      ∃ s2 outs, step (Action.timerFire id h) s1 = some (s2, outs) ∧
        s2.st.userState.countP (fun u => u.id == id) = 0 ∧
        s2.st.savedFile = some s2.st.userState ∧
        outs = (s1.conns.filter (fun c => c.isOpen)).map
          (fun c => (c.cid, Payload.roster s2.st.userState)) ∧
        s2.conns = s1.conns) := by
  have hp1 := Quiet_pendSt id s0 s1 hq ⟨hpend, hros⟩
  refine ⟨hp1.1, ?_⟩
  intro h hmem
  refine ⟨_, _, fire_conclusion id h s1 hmem hp1.2, ?_, rfl, rfl, rfl⟩
  exact countP_eraseP_self _ _ hp1.2

/-- A state in which identity "A" is in the roster and has an armed
deletion timer. -/
def sysPend : Sys :=
  ⟨⟨[⟨"A", some "alice"⟩], [], [("A", 0)], 1, none⟩, [connOpen0]⟩

theorem eviction_after_grace_witness :
    (∃ h, (("A" : String), h) ∈ sysPend.st.deletionTimers) ∧
    (∀ h, (("A" : String), h) ∈ sysPend.st.deletionTimers →
      ∃ s2 outs, step (Action.timerFire "A" h) sysPend = some (s2, outs) ∧
        s2.st.userState.countP (fun u => u.id == "A") = 0 ∧
        s2.st.savedFile = some s2.st.userState ∧
        outs = (sysPend.conns.filter (fun c => c.isOpen)).map
          (fun c => (c.cid, Payload.roster s2.st.userState)) ∧
        s2.conns = sysPend.conns) :=
  eviction_after_grace "A" sysPend sysPend ⟨0, by decide⟩ (by decide)
    (Quiet.refl sysPend)

end WsBack
